import Mathlib

/-!
Verification of the TimeSeries Channel interactive rendering and selection engine
(`src/src/tags/object/TimeSeries/Channel.js` and its near-duplicate `src/unnamed/part_000`).

The embedding models:
* the active d3 linear projection as a `Scale` (domain `[d0, d1]`, pixel range `[r0, r1]`)
  with exact rational arithmetic;
* `d3.bisectLeft` on an ascending sequence as the length of the prefix of elements
  strictly below the query (the leftmost insertion point);
* the `stick` snap resolver closure, `getRegion`, the `brushend` end-of-drag handler,
  the creation brush end handler and `setRangeWithScaling` as pure functions.

JavaScript partiality is made explicit: `times[i]` out of bounds yields `undefined`,
and every arithmetic comparison against `undefined` is `false` (`NaN` semantics); these
are modelled with `Option` results and guards reproducing exactly the comparisons the
JS engine evaluates.  A handler that would throw a `TypeError` is modelled by a `Bool`
flag paired with the actions it emitted before throwing.  Outward calls are modelled as
an `Action` list; each action is tagged `sync` when the handler invokes it directly and
`deferred` when the handler wraps it in `clearD3Event` (`setTimeout(f, 0)`).
-/

namespace TSChannel

/-- The d3 linear/time scale: domain `[d0, d1]` mapped onto pixel range `[r0, r1]`. -/
structure Scale where
  d0 : ℚ
  d1 : ℚ
  r0 : ℚ
  r1 : ℚ
deriving DecidableEq, Repr

/-- `scale(t)`: map a data value to a pixel coordinate (d3 `x(t)`). -/
def Scale.apply (sc : Scale) (t : ℚ) : ℚ :=
  sc.r0 + (t - sc.d0) * (sc.r1 - sc.r0) / (sc.d1 - sc.d0)

/-- `scale.invert(px)`: map a pixel coordinate back to a data value (d3 `x.invert`). -/
def Scale.invert (sc : Scale) (px : ℚ) : ℚ :=
  sc.d0 + (px - sc.r0) * (sc.d1 - sc.d0) / (sc.r1 - sc.r0)

/-- `d3.bisectLeft(times, x)`: the leftmost insertion point of `x` in the ascending
array `times`, i.e. the length of the prefix of elements strictly below `x`. -/
def bisectLeft (times : List ℚ) (x : ℚ) : ℕ :=
  match times with
  | [] => 0
  | t :: rest => if t < x then bisectLeft rest x + 1 else 0

/-- The index finally read by `stick` in `Channel.js`: `bisectLeft` gives `i`, then
`if (dataX - times[i] > times[i + 1] - dataX) i++`.  The JS comparison is evaluated
only when both `times[i]` and `times[i + 1]` exist; when either is `undefined` the
comparison is `NaN > NaN`-like and hence false, so `i` is kept. -/
def stickIndex (times : List ℚ) (dataX : ℚ) : ℕ :=
  if bisectLeft times dataX + 1 < times.length ∧
      dataX - times.getD (bisectLeft times dataX) 0 >
        times.getD (bisectLeft times dataX + 1) 0 - dataX
  then bisectLeft times dataX + 1
  else bisectLeft times dataX

namespace Channel

/-- `stick(screenX)` from `Channel.js` lines 355-360: invert the pixel, bisect the
times array, conditionally advance, and read `[times[i], values[i]]`.  The result is
`none` when `times[i]` is `undefined` (index past the end); inside the bound the
`getD` defaults are never reached. -/
def stick (sc : Scale) (times values : List ℚ) (screenX : ℚ) : Option (ℚ × ℚ) :=
  if stickIndex times (sc.invert screenX) < times.length then
    some (times.getD (stickIndex times (sc.invert screenX)) 0,
      values.getD (stickIndex times (sc.invert screenX)) 0)
  else none

/-- `getRegion(selection, isInstant)` from `Channel.js` lines 136-139: both selection
edges are pushed through `stick` and the time component is taken; an instant region
copies `start` into `end`.  A component is `none` when the JS value would be `NaN`
(`+undefined`). -/
def getRegion (sc : Scale) (times values : List ℚ) (selection : ℚ × ℚ)
    (isInstant : Bool) : Option ℚ × Option ℚ :=
  ((stick sc times values selection.1).map Prod.fst,
    if isInstant then (stick sc times values selection.1).map Prod.fst
    else (stick sc times values selection.2).map Prod.fst)

end Channel

namespace Part000

/-- `stick(screenX)` from `src/unnamed/part_000` lines 276-281 (textually identical
to the `Channel.js` version, over the same projection and series). -/
def stick (sc : Scale) (times values : List ℚ) (screenX : ℚ) : Option (ℚ × ℚ) :=
  if stickIndex times (sc.invert screenX) < times.length then
    some (times.getD (stickIndex times (sc.invert screenX)) 0,
      values.getD (stickIndex times (sc.invert screenX)) 0)
  else none

/-- `getRegion(selection, isInstant)` from `src/unnamed/part_000` lines 121-124. -/
def getRegion (sc : Scale) (times values : List ℚ) (selection : ℚ × ℚ)
    (isInstant : Bool) : Option ℚ × Option ℚ :=
  ((stick sc times values selection.1).map Prod.fst,
    if isInstant then (stick sc times values selection.1).map Prod.fst
    else (stick sc times values selection.2).map Prod.fst)

end Part000

/-- The decimation decision from `componentDidMount`:
`series.length > getOptimalWidth() * this.zoomStep`. -/
def needsDecimation (seriesLength optimalPixelWidth zoomStep : ℕ) : Bool :=
  decide (seriesLength > optimalPixelWidth * zoomStep)

/-- A region handle as read by the brush handlers: identity key, bounds, instant flag. -/
structure Region where
  id : ℕ
  start : ℚ
  stop : ℚ
  instant : Bool
deriving DecidableEq, Repr, Inhabited

/-- Outward calls a brush handler can make. -/
inductive Action where
  | unselectAll
  | selectRegion (id : ℕ)
  | updateView
  | regionChanged (start : Option ℚ) (stop : Option ℚ) (index : ℕ)
  | clearBrush
  | consoleError (id : ℕ)
deriving DecidableEq, Repr

/-- Whether an action mutates the external store (model state, selection, or view),
as opposed to purely local effects (logging, clearing the creation brush visuals). -/
def Action.isStoreMutation : Action → Bool
  | .unselectAll => true
  | .selectRegion _ => true
  | .updateView => true
  | .regionChanged _ _ _ => true
  | .clearBrush => false
  | .consoleError _ => false

/-- An emitted call, tagged by whether the handler ran it synchronously or scheduled
it through `clearD3Event` (`setTimeout(f, 0)`). -/
inductive Emission where
  | sync (a : Action)
  | deferred (a : Action)
deriving DecidableEq, Repr

/-- An emission that runs synchronously inside the handler and mutates the store. -/
def Emission.isSyncStoreMutation : Emission → Bool
  | .sync a => a.isStoreMutation
  | .deferred _ => false

/-- An emission (at whatever time) that mutates the store. -/
def Emission.isStoreEmission : Emission → Bool
  | .sync a => a.isStoreMutation
  | .deferred a => a.isStoreMutation

/-- The JS strict equality `moved.start === r.start` where the left side may be `NaN`
(`+undefined`): `NaN === q` is always false. -/
def optEqNum (o : Option ℚ) (q : ℚ) : Bool :=
  match o with
  | some v => v == q
  | none => false

namespace Channel

/-- The `brushend` closure from `Channel.js` lines 158-175.  Returns the list of
emissions made before control leaves the handler, paired with `true` when the handler
throws: with `i < 0` the code logs `REGION not found` but then evaluates
`ranges[i].instant` on `undefined`, raising a `TypeError`. -/
def brushend (sc : Scale) (times values : List ℚ) (ranges : List Region) (rid : ℕ)
    (hasSourceEvent hasSelection : Bool) (selection : ℚ × ℚ) :
    List Emission × Bool :=
  if !hasSourceEvent || !hasSelection then ([], false)
  else
    match List.findIdx? (fun r => r.id == rid) ranges with
    | none => ([Emission.sync (Action.consoleError rid)], true)
    | some i =>
      if optEqNum (getRegion sc times values selection (ranges.getD i default).instant).1
            (ranges.getD i default).start
          && optEqNum (getRegion sc times values selection (ranges.getD i default).instant).2
            (ranges.getD i default).stop then
        ([Emission.deferred Action.unselectAll,
          Emission.deferred (Action.selectRegion (ranges.getD i default).id),
          Emission.deferred Action.updateView], false)
      else
        ([Emission.deferred (Action.regionChanged
            (getRegion sc times values selection (ranges.getD i default).instant).1
            (getRegion sc times values selection (ranges.getD i default).instant).2 i)],
          false)

/-- The creation brush end handler from `Channel.js` lines 253-274.  `rangesLength`
is `this.props.ranges.length`; `statesSelected` is the truthiness of
`activeStates && activeStates.length`; `selection` is `d3.event.selection` and
`mouseX` the raw pointer position used for the zero-width click case. -/
def brushCreatorEnd (sc : Scale) (times values : List ℚ) (rangesLength : ℕ)
    (statesSelected hasSourceEvent : Bool) (selection : Option (ℚ × ℚ)) (mouseX : ℚ) :
    List Emission :=
  if !hasSourceEvent then []
  else
    match selection with
    | none =>
      if statesSelected then
        [Emission.deferred (Action.regionChanged
          (getRegion sc times values (mouseX, mouseX) false).1
          (getRegion sc times values (mouseX, mouseX) false).2 rangesLength)]
      else []
    | some sel =>
      Emission.deferred Action.clearBrush ::
        (if !statesSelected then []
        else
          [Emission.deferred (Action.regionChanged
            (getRegion sc times values sel false).1
            (getRegion sc times values sel false).2 rangesLength)])

end Channel

/-- Which dataset the main path is bound to (`path.datum(...)`). -/
inductive PathDatum where
  | decimated
  | slice (i : ℕ)
  | fullSeries
deriving DecidableEq, Repr

/-- What the last `path.attr("d", ...)` was computed from. -/
inductive PathD where
  | fromLine
  | fromLineSlice
  | empty
deriving DecidableEq, Repr

/-- The `transform` attribute of the main path: cleared (`""`) or
`translate(t 0) scale(s 1)`. -/
inductive PathTransform where
  | identity
  | translateScale (t s : ℚ)
deriving DecidableEq, Repr

/-- The mutable drawing state of a mounted channel that `setRangeWithScaling` touches. -/
structure ChannelState where
  needZoomOptimization : Bool
  hasOptimizedSeries : Bool
  zoomStep : ℚ
  pathDatum : PathDatum
  pathD : PathD
  pathTransform : PathTransform
  path2Datum : Option PathDatum
  path2D : PathD
deriving DecidableEq, Repr

/-- The two level-of-detail modes: Overview draws the decimated series through a
scale/translate transform (`needZoomOptimization = true`), Detail draws freshly bound
high-resolution data (`needZoomOptimization = false`). -/
inductive Mode where
  | overview
  | detail
deriving DecidableEq, Repr

/-- The LOD mode encoded by the `needZoomOptimization` flag. -/
def ChannelState.mode (s : ChannelState) : Mode :=
  if s.needZoomOptimization then Mode.overview else Mode.detail

/-- The mode indicated by the zoom ratio: `scale > zoomStep` calls for Detail. -/
def desiredMode (scale zoomStep : ℚ) : Mode :=
  if scale > zoomStep then Mode.detail else Mode.overview

/-- The quantities computed by `setRangeWithScaling` lines 505-511 of `Channel.js`. -/
structure RangeMath where
  scale : ℚ
  translate : ℚ
  left : ℕ
  right : ℕ
deriving DecidableEq, Repr

/-- `setRangeWithScaling`'s view math: after `this.x.domain(range)`, `current` is the
pixel range of `x` and `all` is the full-extent domain of `plotX` mapped through the
updated `x`; `left`/`right` are the zoom-step bucket indices of the two viewport
edges, clamped to `>= 0` by `Math.max(0, Math.floor(...))`. -/
def rangeMath (zoomStep plotD0 plotD1 : ℚ) (x : Scale) : RangeMath :=
  { scale := (x.apply plotD1 - x.apply plotD0) / (x.r1 - x.r0)
    translate := x.apply plotD0 - x.r0
    left := (max 0 ⌊zoomStep * (x.r0 - x.apply plotD0) /
      (x.apply plotD1 - x.apply plotD0)⌋).toNat
    right := (max 0 ⌊zoomStep * (x.r1 - x.apply plotD0) /
      (x.apply plotD1 - x.apply plotD0)⌋).toNat }

/-- The drawing-state transition of `setRangeWithScaling` (`Channel.js` lines
525-552): the mode-flip block (`if (this.optimizedSeries && scale > this.zoomStep ===
this.needZoomOptimization)`), then the draw block that either applies the algebraic
transform to the decimated path (Overview) or rebinds the edge-bucket slices
(Detail with decimation) or redraws the filtered full series (Detail without). -/
def setRangeWithScaling (s : ChannelState) (m : RangeMath) : ChannelState :=
  let s1 :=
    if s.hasOptimizedSeries && (decide (m.scale > s.zoomStep) == s.needZoomOptimization)
    then
      if !s.needZoomOptimization then
        { s with
          needZoomOptimization := true
          pathDatum := PathDatum.decimated
          pathD := PathD.fromLine }
      else
        { s with
          needZoomOptimization := false
          pathTransform := PathTransform.identity }
    else s
  if s1.needZoomOptimization then
    { s1 with
      pathTransform := PathTransform.translateScale m.translate m.scale
      path2D := PathD.empty }
  else if s1.hasOptimizedSeries then
    if m.left ≠ m.right then
      { s1 with
        pathDatum := PathDatum.slice m.left
        pathD := PathD.fromLineSlice
        path2Datum := some (PathDatum.slice m.right)
        path2D := PathD.fromLineSlice }
    else
      { s1 with
        pathDatum := PathDatum.slice m.left
        pathD := PathD.fromLineSlice
        path2D := PathD.empty }
  else
    { s1 with
      pathD := PathD.fromLineSlice
      path2D := PathD.empty }

end TSChannel

namespace TSChannel

theorem bisectLeft_le_length (times : List ℚ) (x : ℚ) :
    bisectLeft times x ≤ times.length := by
  induction times with
  | nil => simp [bisectLeft]
  | cons t rest ih =>
    simp only [bisectLeft, List.length_cons]
    split
    · exact Nat.succ_le_succ ih
    · exact Nat.zero_le _

theorem bisectLeft_mono (times : List ℚ) {x y : ℚ} (hxy : x ≤ y) :
    bisectLeft times x ≤ bisectLeft times y := by
  induction times with
  | nil => exact Nat.le_refl _
  | cons t rest ih =>
    by_cases h : t < x
    · have hy : t < y := lt_of_lt_of_le h hxy
      simp only [bisectLeft, if_pos h, if_pos hy]
      exact Nat.succ_le_succ ih
    · simp only [bisectLeft, if_neg h]
      exact Nat.zero_le _

theorem le_getD_bisectLeft (times : List ℚ) (x d : ℚ)
    (h : bisectLeft times x < times.length) :
    x ≤ times.getD (bisectLeft times x) d := by
  induction times with
  | nil => simp [bisectLeft] at h
  | cons t rest ih =>
    by_cases ht : t < x
    · simp only [bisectLeft, if_pos ht] at h ⊢
      simp only [List.length_cons, Nat.succ_lt_succ_iff] at h
      simpa using ih h
    · simp only [bisectLeft, if_neg ht]
      simpa using le_of_not_lt ht

theorem bisectLeft_lt_length (times : List ℚ) (x t : ℚ) (ht : t ∈ times)
    (hx : ¬ t < x) : bisectLeft times x < times.length := by
  induction times with
  | nil => simp at ht
  | cons a rest ih =>
    by_cases ha : a < x
    · simp only [bisectLeft, if_pos ha, List.length_cons]
      rcases List.mem_cons.mp ht with rfl | hmem
      · exact absurd ha hx
      · exact Nat.succ_lt_succ (ih hmem)
    · simp [bisectLeft, if_neg ha]

theorem sorted_getD_mono {l : List ℚ} (hs : l.Sorted (· ≤ ·)) {i j : ℕ}
    (hij : i ≤ j) (hj : j < l.length) (d : ℚ) : l.getD i d ≤ l.getD j d := by
  have hi : i < l.length := lt_of_le_of_lt hij hj
  rw [List.getD_eq_getElem l d hi, List.getD_eq_getElem l d hj]
  rcases eq_or_lt_of_le hij with rfl | hlt
  · exact le_refl _
  · have := List.pairwise_iff_get.mp hs ⟨i, hi⟩ ⟨j, hj⟩ hlt
    simpa using this

/-- On an ascending series the advance condition of `stick` never fires: with
`i = bisectLeft times x` we have `x ≤ times[i] ≤ times[i+1]`, so
`x - times[i] > times[i+1] - x` is impossible. -/
theorem stickIndex_eq_bisectLeft (times : List ℚ) (x : ℚ)
    (hs : times.Sorted (· ≤ ·)) : stickIndex times x = bisectLeft times x := by
  unfold stickIndex
  rw [if_neg]
  rintro ⟨h1, h2⟩
  have h0 : bisectLeft times x < times.length := by omega
  have hx : x ≤ times.getD (bisectLeft times x) 0 := le_getD_bisectLeft _ _ _ h0
  have hstep : times.getD (bisectLeft times x) 0 ≤ times.getD (bisectLeft times x + 1) 0 :=
    sorted_getD_mono hs (Nat.le_succ _) h1 0
  linarith

theorem stick_eq_of_sorted (sc : Scale) (times values : List ℚ) (px : ℚ)
    (hs : times.Sorted (· ≤ ·))
    (h : bisectLeft times (sc.invert px) < times.length) :
    Channel.stick sc times values px =
      some (times.getD (bisectLeft times (sc.invert px)) 0,
        values.getD (bisectLeft times (sc.invert px)) 0) := by
  unfold Channel.stick
  rw [stickIndex_eq_bisectLeft _ _ hs, if_pos h]

theorem invert_mono (sc : Scale) {a b : ℚ} (hr : sc.r0 < sc.r1)
    (hd : sc.d0 ≤ sc.d1) (hab : a ≤ b) : sc.invert a ≤ sc.invert b := by
  unfold Scale.invert
  have hrr : (0:ℚ) < sc.r1 - sc.r0 := by linarith
  have hdd : (0:ℚ) ≤ sc.d1 - sc.d0 := by linarith
  have h1 : (a - sc.r0) * (sc.d1 - sc.d0) ≤ (b - sc.r0) * (sc.d1 - sc.d0) :=
    mul_le_mul_of_nonneg_right (by linarith) hdd
  exact add_le_add_left ((div_le_div_iff_of_pos_right hrr).mpr h1) _

/-- Inverting the right pixel edge gives the right end of the domain. -/
theorem invert_r1 (sc : Scale) (hr : sc.r0 < sc.r1) : sc.invert sc.r1 = sc.d1 := by
  unfold Scale.invert
  have hne : sc.r1 - sc.r0 ≠ 0 := by intro h; apply absurd hr; rw [not_lt]; linarith
  field_simp

end TSChannel

/-- Claim C4: the decimation decision computed in `componentDidMount`
(`series.length > getOptimalWidth() * this.zoomStep`) equals the predicate
`n > w * z` for all non-negative integers, and an empty series never enables
decimation. -/
theorem needsDecimation_iff (n w z : ℕ) :
    (TSChannel.needsDecimation n w z = true ↔ n > w * z) ∧
      TSChannel.needsDecimation 0 w z = false := by
  constructor
  · simp [TSChannel.needsDecimation]
  · simp [TSChannel.needsDecimation]

/-- Claim C10: the `stick` and `getRegion` implementations in
`src/src/tags/object/TimeSeries/Channel.js` and in `src/unnamed/part_000` are
extensionally equal: over the same series and projection they return identical
results for every pixel input, selection and instant flag. -/
theorem stick_getRegion_duplicates_agree :
    (∀ (sc : TSChannel.Scale) (times values : List ℚ) (px : ℚ),
      TSChannel.Channel.stick sc times values px =
        TSChannel.Part000.stick sc times values px) ∧
    (∀ (sc : TSChannel.Scale) (times values : List ℚ) (sel : ℚ × ℚ) (isInstant : Bool),
      TSChannel.Channel.getRegion sc times values sel isInstant =
        TSChannel.Part000.getRegion sc times values sel isInstant) :=
  ⟨fun _ _ _ _ => rfl, fun _ _ _ _ _ => rfl⟩

/-- Claim C1 is refuted by the code (bug exhibit).  With times `[0, 10]`, values
`[5, 7]` and the projection mapping domain `[0, 10]` onto pixels `[0, 840]`, pixel
`84` inverts to data-time `1`, whose nearest sample is `(0, 5)` (distance `1` versus
`9`); yet `stick` returns `(10, 7)`.  The advance condition compares `times[i]` with
`times[i + 1]` instead of the two neighbours `times[i - 1]`, `times[i]` of the
insertion gap, so on an ascending series it never fires and `stick` always returns
the first sample with time at least `invert(x)`, not the closest sample. -/
theorem stick_returns_right_neighbor_not_nearest :
    TSChannel.Channel.stick ⟨0, 10, 0, 840⟩ [0, 10] [5, 7] 84 = some (10, 7) ∧
      TSChannel.Scale.invert ⟨0, 10, 0, 840⟩ 84 = 1 ∧
      |(1:ℚ) - 0| < |(10:ℚ) - 1| := by
  refine ⟨?_, ?_, by norm_num⟩
  · norm_num [TSChannel.Channel.stick, TSChannel.stickIndex, TSChannel.bisectLeft,
      TSChannel.Scale.invert]
  · norm_num [TSChannel.Scale.invert]

/-- Claim C7 is refuted by the code on the right edge (bug exhibit).  A pixel left
of the plotted range does return the first sample, but a pixel right of the plotted
range (here `924`, inverting to data-time `11 > 10`) makes `bisectLeft` return
`times.length`, so `stick` reads `times[length]` / `values[length]` and yields
`[undefined, undefined]` (modelled `none`) instead of the nearest boundary sample
`(10, 7)`. -/
theorem stick_out_of_range_boundary :
    TSChannel.Channel.stick ⟨0, 10, 0, 840⟩ [0, 10] [5, 7] (-84) = some (0, 5) ∧
      TSChannel.Channel.stick ⟨0, 10, 0, 840⟩ [0, 10] [5, 7] 924 = none := by
  constructor
  · norm_num [TSChannel.Channel.stick, TSChannel.stickIndex, TSChannel.bisectLeft,
      TSChannel.Scale.invert]
  · norm_num [TSChannel.Channel.stick, TSChannel.stickIndex, TSChannel.bisectLeft,
      TSChannel.Scale.invert]

open TSChannel in
/-- Claim C2: while a decimated series is available, `setRangeWithScaling` flips
between Overview and Detail exactly when the mode indicated by the zoom ratio
(Detail when `scale > zoomStep`, Overview otherwise) differs from the current mode;
and zooming in past the threshold while in Overview puts the controller in Detail
mode, clears the decimated path's transform, and freshly binds the left edge-bucket
high-resolution slice drawn through `lineSlice`. -/
theorem setRangeWithScaling_mode_flip (s : ChannelState) (m : RangeMath)
    (hOpt : s.hasOptimizedSeries = true) :
    ((setRangeWithScaling s m).mode ≠ s.mode ↔
      desiredMode m.scale s.zoomStep ≠ s.mode) ∧
    (s.needZoomOptimization = true → m.scale > s.zoomStep →
      (setRangeWithScaling s m).mode = Mode.detail ∧
      (setRangeWithScaling s m).pathDatum = PathDatum.slice m.left ∧
      (setRangeWithScaling s m).pathD = PathD.fromLineSlice ∧
      (setRangeWithScaling s m).pathTransform = PathTransform.identity) := by
  cases hb : s.needZoomOptimization <;> by_cases hgt : m.scale > s.zoomStep <;>
    by_cases hlr : m.left = m.right <;>
      simp [setRangeWithScaling, ChannelState.mode, desiredMode, hOpt, hb, hgt, hlr]

open TSChannel in
/-- Witness for C2: a concrete Overview state with decimation available and a
viewport `[900, 950]` of full extent `[0, 1000]` on an 840 px strip (zoom ratio
`20 > 10`) ends in Detail mode with a freshly bound slice and a cleared transform. -/
theorem setRangeWithScaling_mode_flip_witness :
    (setRangeWithScaling
        ⟨true, true, 10, PathDatum.decimated, PathD.fromLine,
          PathTransform.translateScale 0 1, none, PathD.empty⟩
        (rangeMath 10 0 1000 ⟨900, 950, 0, 840⟩)).mode = Mode.detail ∧
    (setRangeWithScaling
        ⟨true, true, 10, PathDatum.decimated, PathD.fromLine,
          PathTransform.translateScale 0 1, none, PathD.empty⟩
        (rangeMath 10 0 1000 ⟨900, 950, 0, 840⟩)).pathDatum =
      PathDatum.slice (rangeMath 10 0 1000 ⟨900, 950, 0, 840⟩).left ∧
    (setRangeWithScaling
        ⟨true, true, 10, PathDatum.decimated, PathD.fromLine,
          PathTransform.translateScale 0 1, none, PathD.empty⟩
        (rangeMath 10 0 1000 ⟨900, 950, 0, 840⟩)).pathD = PathD.fromLineSlice ∧
    (setRangeWithScaling
        ⟨true, true, 10, PathDatum.decimated, PathD.fromLine,
          PathTransform.translateScale 0 1, none, PathD.empty⟩
        (rangeMath 10 0 1000 ⟨900, 950, 0, 840⟩)).pathTransform =
      PathTransform.identity :=
  (setRangeWithScaling_mode_flip _ _ rfl).2 rfl
    (by norm_num [rangeMath, Scale.apply])

open TSChannel in
/-- With a user source event and a selection, once the region id is found at index
`i`, `brushend` reduces to the click-versus-move conditional. -/
theorem brushend_found (sc : Scale) (times values : List ℚ) (ranges : List Region)
    (rid : ℕ) (selection : ℚ × ℚ) (i : ℕ)
    (hfind : List.findIdx? (fun r => r.id == rid) ranges = some i) :
    Channel.brushend sc times values ranges rid true true selection =
      (if optEqNum (Channel.getRegion sc times values selection
            (ranges.getD i default).instant).1 (ranges.getD i default).start
          && optEqNum (Channel.getRegion sc times values selection
            (ranges.getD i default).instant).2 (ranges.getD i default).stop then
        ([Emission.deferred Action.unselectAll,
          Emission.deferred (Action.selectRegion (ranges.getD i default).id),
          Emission.deferred Action.updateView], false)
      else
        ([Emission.deferred (Action.regionChanged
            (Channel.getRegion sc times values selection
              (ranges.getD i default).instant).1
            (Channel.getRegion sc times values selection
              (ranges.getD i default).instant).2 i)], false)) := by
  unfold Channel.brushend
  rw [hfind]
  rfl

open TSChannel in
/-- Claim C3: at the end of a brush drag on an existing region (id found at index
`i`), if the snapped `(start, end)` strictly equals the region's current bounds the
handler only schedules `unselectAll`, `selectRegion` for this region and a view
update (a click: no `regionChanged`); otherwise it only schedules `regionChanged`
with the new bounds and this region's index (selection state untouched). -/
theorem brushend_click_vs_move (sc : Scale) (times values : List ℚ)
    (ranges : List Region) (rid : ℕ) (selection : ℚ × ℚ) (i : ℕ)
    (hfind : List.findIdx? (fun r => r.id == rid) ranges = some i) :
    ((optEqNum (Channel.getRegion sc times values selection
          (ranges.getD i default).instant).1 (ranges.getD i default).start
        && optEqNum (Channel.getRegion sc times values selection
          (ranges.getD i default).instant).2 (ranges.getD i default).stop) = true →
      Channel.brushend sc times values ranges rid true true selection =
        ([Emission.deferred Action.unselectAll,
          Emission.deferred (Action.selectRegion (ranges.getD i default).id),
          Emission.deferred Action.updateView], false)) ∧
    ((optEqNum (Channel.getRegion sc times values selection
          (ranges.getD i default).instant).1 (ranges.getD i default).start
        && optEqNum (Channel.getRegion sc times values selection
          (ranges.getD i default).instant).2 (ranges.getD i default).stop) = false →
      Channel.brushend sc times values ranges rid true true selection =
        ([Emission.deferred (Action.regionChanged
          (Channel.getRegion sc times values selection (ranges.getD i default).instant).1
          (Channel.getRegion sc times values selection (ranges.getD i default).instant).2
          i)], false)) := by
  constructor <;> intro h
  · rw [brushend_found sc times values ranges rid selection i hfind, if_pos h]
  · rw [brushend_found sc times values ranges rid selection i hfind,
      if_neg (by rw [h]; simp)]

open TSChannel in
/-- Witness for C3: a zero-movement drag over the single region `(0, 10)` on the
concrete series snaps back to `(0, 10)` and is treated as a click. -/
theorem brushend_click_vs_move_witness :
    Channel.brushend ⟨0, 10, 0, 840⟩ [0, 10] [5, 7] [⟨1, 0, 10, false⟩] 1 true true
        (0, 840) =
      ([Emission.deferred Action.unselectAll,
        Emission.deferred (Action.selectRegion
          (([⟨1, 0, 10, false⟩] : List Region).getD 0 default).id),
        Emission.deferred Action.updateView], false) :=
  (brushend_click_vs_move ⟨0, 10, 0, 840⟩ [0, 10] [5, 7] [⟨1, 0, 10, false⟩] 1
      (0, 840) 0 rfl).1
    (by norm_num [Channel.getRegion, Channel.stick, stickIndex, bisectLeft,
      Scale.invert, optEqNum])

open TSChannel in
/-- Claim C8: neither end-of-drag handler invokes a store mutation synchronously:
every `unselectAll` / `selectRegion` / `updateView` / `regionChanged` emission of
`brushend` and of the creation brush handler is wrapped in `clearD3Event`
(deferred one tick), so the handler returns before any store mutation runs. -/
theorem brush_handlers_defer_store_mutations (sc : Scale) (times values : List ℚ)
    (ranges : List Region) (rid : ℕ) (hasSourceEvent hasSelection : Bool)
    (selection : ℚ × ℚ) (rangesLength : ℕ) (statesSelected hasSourceEventC : Bool)
    (creatorSelection : Option (ℚ × ℚ)) (mouseX : ℚ) :
    (Channel.brushend sc times values ranges rid hasSourceEvent hasSelection
        selection).1.filter Emission.isSyncStoreMutation = [] ∧
    (Channel.brushCreatorEnd sc times values rangesLength statesSelected
        hasSourceEventC creatorSelection mouseX).filter
      Emission.isSyncStoreMutation = [] := by
  constructor
  · cases hasSourceEvent with
    | false => rfl
    | true =>
      cases hasSelection with
      | false => rfl
      | true =>
        cases h : List.findIdx? (fun r => r.id == rid) ranges with
        | none =>
          simp [Channel.brushend, h, Emission.isSyncStoreMutation,
            Action.isStoreMutation]
        | some i =>
          rw [brushend_found sc times values ranges rid selection i h]
          split
          · rfl
          · rfl
  · cases hasSourceEventC with
    | false => rfl
    | true =>
      cases creatorSelection with
      | none => cases statesSelected <;> rfl
      | some sel => cases statesSelected <;> rfl

open TSChannel in
/-- Claim C9: with a user source event, every region-create request of the creation
brush — a zero-width click resolved at the raw pointer position when the selection
is empty, or the snapped selection of a completed drag — is forwarded as a
`regionChanged` whose index is the current region count `ranges.length` (an append
past the end); with no active label nothing is forwarded to the store. -/
theorem brushCreator_forwards_append_index (sc : Scale) (times values : List ℚ)
    (rangesLength : ℕ) (statesSelected : Bool) (selection : Option (ℚ × ℚ))
    (mouseX : ℚ) :
    (statesSelected = false →
      (Channel.brushCreatorEnd sc times values rangesLength statesSelected true
        selection mouseX).filter Emission.isStoreEmission = []) ∧
    (statesSelected = true → selection = none →
      Channel.brushCreatorEnd sc times values rangesLength statesSelected true
          selection mouseX =
        [Emission.deferred (Action.regionChanged
          (Channel.getRegion sc times values (mouseX, mouseX) false).1
          (Channel.getRegion sc times values (mouseX, mouseX) false).2
          rangesLength)]) ∧
    (statesSelected = true → ∀ sel, selection = some sel →
      Channel.brushCreatorEnd sc times values rangesLength statesSelected true
          selection mouseX =
        [Emission.deferred Action.clearBrush,
          Emission.deferred (Action.regionChanged
            (Channel.getRegion sc times values sel false).1
            (Channel.getRegion sc times values sel false).2 rangesLength)]) := by
  refine ⟨fun h => ?_, fun h hsel => ?_, fun h sel hsel => ?_⟩
  · rcases selection with _ | sel <;>
      simp [Channel.brushCreatorEnd, h, Emission.isStoreEmission,
        Action.isStoreMutation]
  · simp [Channel.brushCreatorEnd, h, hsel]
  · simp [Channel.brushCreatorEnd, h, hsel]

open TSChannel in
/-- Witness for C9: an empty-selection click with an active label and three existing
regions forwards exactly one deferred `regionChanged` at index `3`. -/
theorem brushCreator_forwards_append_index_witness :
    Channel.brushCreatorEnd ⟨0, 10, 0, 840⟩ [0, 10] [5, 7] 3 true true none 84 =
      [Emission.deferred (Action.regionChanged
        (Channel.getRegion ⟨0, 10, 0, 840⟩ [0, 10] [5, 7] (84, 84) false).1
        (Channel.getRegion ⟨0, 10, 0, 840⟩ [0, 10] [5, 7] (84, 84) false).2 3)] :=
  (brushCreator_forwards_append_index ⟨0, 10, 0, 840⟩ [0, 10] [5, 7] 3 true none
    84).2.1 rfl rfl

open TSChannel in
/-- Claim C5: every `(start, end)` pair produced by `getRegion` from a brush
selection `[a, b]` with `a ≤ b` inside the pixel strip, over a series sorted
ascending whose extent covers the viewport domain, satisfies the region invariant:
both bounds are defined, `start = end` for an instant region and `start ≤ end`
always. -/
theorem getRegion_invariant (sc : Scale) (times values : List ℚ) (a b : ℚ)
    (isInstant : Bool) (hne : times ≠ []) (hsort : times.Sorted (· ≤ ·))
    (hr : sc.r0 < sc.r1) (hd : sc.d0 ≤ sc.d1) (hab : a ≤ b) (hb : b ≤ sc.r1)
    (hd1 : sc.d1 ≤ times.getLast hne) :
    ∃ s e, Channel.getRegion sc times values (a, b) isInstant = (some s, some e) ∧
      (isInstant = true → s = e) ∧ s ≤ e := by
  have hinvab : sc.invert a ≤ sc.invert b := invert_mono sc hr hd hab
  have hinvb : sc.invert b ≤ sc.d1 := by
    have h := invert_mono sc hr hd hb
    rwa [invert_r1 sc hr] at h
  have hlast : sc.invert b ≤ times.getLast hne := le_trans hinvb hd1
  have hmem : times.getLast hne ∈ times := List.getLast_mem hne
  have hiB : bisectLeft times (sc.invert b) < times.length :=
    bisectLeft_lt_length times (sc.invert b) (times.getLast hne) hmem
      (not_lt.mpr hlast)
  have hle : bisectLeft times (sc.invert a) ≤ bisectLeft times (sc.invert b) :=
    bisectLeft_mono times hinvab
  have hiA : bisectLeft times (sc.invert a) < times.length := lt_of_le_of_lt hle hiB
  have hsA := stick_eq_of_sorted sc times values a hsort hiA
  have hsB := stick_eq_of_sorted sc times values b hsort hiB
  have hmono : times.getD (bisectLeft times (sc.invert a)) 0 ≤
      times.getD (bisectLeft times (sc.invert b)) 0 :=
    sorted_getD_mono hsort hle hiB 0
  cases isInstant with
  | true =>
    refine ⟨times.getD (bisectLeft times (sc.invert a)) 0,
      times.getD (bisectLeft times (sc.invert a)) 0, ?_, fun _ => rfl, le_refl _⟩
    simp [Channel.getRegion, hsA]
  | false =>
    refine ⟨times.getD (bisectLeft times (sc.invert a)) 0,
      times.getD (bisectLeft times (sc.invert b)) 0, ?_, by simp, hmono⟩
    simp [Channel.getRegion, hsA, hsB]

open TSChannel in
/-- Witness for C5: the full-width interval selection `[0, 840]` over the concrete
series yields defined bounds `0 ≤ 10`. -/
theorem getRegion_invariant_witness :
    ∃ s e, Channel.getRegion ⟨0, 10, 0, 840⟩ [0, 10] [5, 7] (0, 840) false =
        (some s, some e) ∧ (false = true → s = e) ∧ s ≤ e :=
  getRegion_invariant ⟨0, 10, 0, 840⟩ [0, 10] [5, 7] 0 840 false (by decide)
    (by decide) (by decide) (by decide) (by decide) (by decide) (by decide)

/-- Claim C6 is refuted by the code (bug exhibit).  When the region id captured by
`brushend` is no longer in the current region list, `findIndex` yields `-1`; the
handler logs `REGION ... was not found` but does not return, so `ranges[-1]` is
`undefined` and reading `.instant` on it throws a `TypeError` (modelled by the
`true` flag).  The gesture therefore does not complete as a non-throwing no-op. -/
theorem brushend_missing_region_logs_and_throws :
    TSChannel.Channel.brushend ⟨0, 10, 0, 840⟩ [0, 10] [5, 7] [] 5 true true (0, 0) =
      ([TSChannel.Emission.sync (TSChannel.Action.consoleError 5)], true) := by
  rfl
